import Mathlib

/-!
Verification of the identity-bound share algebra and the authorized key-refresh
control plane of the wamu threshold-ECDSA wallet protocol.

The development shallowly embeds the Rust sources:
* `crates/core/src/share_split_reconstruct.rs` and `src/sub_share.rs`
  (share split / reconstruct over the secp256k1 scalar field),
* `src/crypto.rs` (tagged keys and signatures, dispatching verification),
* `crates/core/src/identity_challenge.rs` and `identity_rotation.rs`,
* `crates/cggmp/src/authorized_key_refresh.rs` (composite state machine),
* `crates/cggmp/src/key_refresh.rs` (FS-DKR threshold guard).

Field arithmetic modulo the secp256k1 group order `q` is embedded as `ZMod q`;
the modular inverse used by the interpolator (`crypto_bigint`'s Bezout-style
`invert`) is `ZMod`'s Bezout-coefficient inverse.  The development first
certifies that `q` is prime (Lucas certificates, verified by fast modular
exponentiation), making `ZMod q` a field.
-/

set_option maxRecDepth 8000
set_option exponentiation.threshold 350

namespace Wamu

/-! ## Fast modular exponentiation (used only to verify primality certificates) -/

/-- Fuel-indexed binary modular exponentiation: `powModAux fuel n a k = a ^ k % n`
whenever `k < 2 ^ fuel`.  Structural recursion on the fuel keeps the function
kernel-reducible. -/
def powModAux : Nat → Nat → Nat → Nat → Nat
  | 0, n, _, _ => 1 % n
  | fuel + 1, n, a, k =>
    if k = 0 then 1 % n
    else
      let h := powModAux fuel n (a * a % n) (k / 2)
      if k % 2 = 1 then a * h % n else h

/-- Binary modular exponentiation, valid for exponents below `2 ^ 300`. -/
def powMod (n a k : Nat) : Nat := powModAux 300 n a k

theorem mul_mod_right_mod (a b n : Nat) : a * (b % n) % n = a * b % n := by
  conv_lhs => rw [Nat.mul_mod]
  rw [Nat.mod_mod_of_dvd _ dvd_rfl, ← Nat.mul_mod]

theorem powModAux_correct : ∀ (fuel n a k : Nat), k < 2 ^ fuel →
    powModAux fuel n a k = a ^ k % n := by
  intro fuel
  induction fuel with
  | zero =>
    intro n a k hk
    interval_cases k
    simp [powModAux]
  | succ fuel ih =>
    intro n a k hk
    rcases Nat.eq_zero_or_pos k with hk0 | hk0
    · subst hk0; simp [powModAux]
    · have hk2 : k / 2 < 2 ^ fuel := by
        have h2 : k < 2 ^ fuel * 2 := by
          simpa [Nat.pow_succ] using hk
        omega
      have hrec := ih n (a * a % n) (k / 2) hk2
      have hsq : (a * a % n) ^ (k / 2) % n = (a * a) ^ (k / 2) % n := by
        rw [← Nat.pow_mod]
      have hkodd : k % 2 = 1 ∨ k % 2 = 0 := by omega
      rcases hkodd with hodd | heven
      · have hstep : powModAux (fuel + 1) n a k = a * ((a * a) ^ (k / 2) % n) % n := by
          rw [powModAux, if_neg (by omega : ¬ k = 0)]
          simp only [if_pos hodd]
          rw [hrec, hsq]
        have hpow : a ^ k = a * (a * a) ^ (k / 2) := by
          conv_lhs => rw [show k = 2 * (k / 2) + 1 by omega]
          rw [pow_add, pow_mul, pow_two, pow_one, mul_comm]
        rw [hstep, mul_mod_right_mod, hpow]
      · have hstep : powModAux (fuel + 1) n a k = (a * a) ^ (k / 2) % n := by
          rw [powModAux, if_neg (by omega : ¬ k = 0)]
          simp only [if_neg (by omega : ¬ k % 2 = 1)]
          rw [hrec, hsq]
        have hpow : a ^ k = (a * a) ^ (k / 2) := by
          conv_lhs => rw [show k = 2 * (k / 2) by omega]
          rw [pow_mul, pow_two]
        rw [hstep, hpow]

theorem powMod_correct (n a k : Nat) (hk : k < 2 ^ 300) : powMod n a k = a ^ k % n :=
  powModAux_correct 300 n a k hk

theorem zmod_pow_eq_one (p a k : Nat) (hp : 1 < p) (hk : k < 2 ^ 300)
    (h : powMod p a k = 1) : (a : ZMod p) ^ k = 1 := by
  have h1 : ((a ^ k : Nat) : ZMod p) = ((1 : Nat) : ZMod p) := by
    rw [ZMod.natCast_eq_natCast_iff']
    rw [← powMod_correct p a k hk, h, Nat.mod_eq_of_lt hp]
  simpa using h1

theorem zmod_pow_ne_one (p a k : Nat) (hp : 1 < p) (hk : k < 2 ^ 300)
    (h : powMod p a k ≠ 1) : (a : ZMod p) ^ k ≠ 1 := by
  intro hcontra
  apply h
  have h1 : ((a ^ k : Nat) : ZMod p) = ((1 : Nat) : ZMod p) := by
    push_cast
    simpa using hcontra
  rw [ZMod.natCast_eq_natCast_iff'] at h1
  rw [powMod_correct p a k hk, h1, Nat.mod_eq_of_lt hp]

/-- Lucas primality certificate checker: `p` is prime if some `a` has
`a ^ (p - 1) = 1 (mod p)` but `a ^ ((p - 1) / r) ≠ 1 (mod p)` for every prime
`r` dividing `p - 1`, the prime factorisation of `p - 1` being supplied as an
explicit list of `(prime, multiplicity)` pairs. -/
theorem lucas_cert (p a : Nat) (ps : List (Nat × Nat))
    (hp : 1 < p) (hlt : p - 1 < 2 ^ 300)
    (hprod : (ps.map fun pe => pe.1 ^ pe.2).prod = p - 1)
    (hprimes : ∀ pe ∈ ps, Nat.Prime pe.1)
    (hpow : powMod p a (p - 1) = 1)
    (hwit : ∀ pe ∈ ps, powMod p a ((p - 1) / pe.1) ≠ 1) :
    Nat.Prime p := by
  refine lucas_primality p (a : ZMod p) (zmod_pow_eq_one p a (p - 1) hp hlt hpow) ?_
  intro r hr hdvd
  rw [← hprod] at hdvd
  obtain ⟨x, hxmem, hxdvd⟩ := (Nat.Prime.prime hr).dvd_prod_iff.mp hdvd
  obtain ⟨pe, hpe, rfl⟩ := List.mem_map.mp hxmem
  have hrpe : r = pe.1 := by
    have hdvd1 : r ∣ pe.1 := hr.dvd_of_dvd_pow hxdvd
    exact (Nat.prime_dvd_prime_iff_eq hr (hprimes pe hpe)).mp hdvd1
  rw [hrpe]
  exact zmod_pow_ne_one p a ((p - 1) / pe.1)
    hp (lt_of_le_of_lt (Nat.div_le_self _ _) hlt) (hwit pe hpe)

/-! ## Primality of the secp256k1 group order -/

theorem prime_1627771 : Nat.Prime 1627771 := by
  refine lucas_cert 1627771 3
    [(2, 1), (3, 1), (5, 1), (29, 1), (1871, 1)]
    (by norm_num) (by decide) (by decide) ?_ (by decide) (by decide)
  intro pe hpe
  fin_cases hpe <;> simp only [] <;> norm_num

theorem prime_4681609 : Nat.Prime 4681609 := by
  refine lucas_cert 4681609 23
    [(2, 3), (3, 1), (97, 1), (2011, 1)]
    (by norm_num) (by decide) (by decide) ?_ (by decide) (by decide)
  intro pe hpe
  fin_cases hpe <;> simp only [] <;> norm_num

theorem prime_44706919 : Nat.Prime 44706919 := by
  refine lucas_cert 44706919 6
    [(2, 1), (3, 1), (797, 1), (9349, 1)]
    (by norm_num) (by decide) (by decide) ?_ (by decide) (by decide)
  intro pe hpe
  fin_cases hpe <;> simp only [] <;> norm_num

theorem prime_545358713 : Nat.Prime 545358713 := by
  refine lucas_cert 545358713 5
    [(2, 3), (41, 1), (59, 1), (28181, 1)]
    (by norm_num) (by decide) (by decide) ?_ (by decide) (by decide)
  intro pe hpe
  fin_cases hpe <;> simp only [] <;> norm_num

theorem prime_297159362677 : Nat.Prime 297159362677 := by
  refine lucas_cert 297159362677 2
    [(2, 2), (3, 2), (11, 1), (461, 1), (1627771, 1)]
    (by norm_num) (by decide) (by decide) ?_ (by decide) (by decide)
  intro pe hpe
  fin_cases hpe <;> simp only [] <;> first | exact prime_1627771 | norm_num

theorem prime_107361793816595537 : Nat.Prime 107361793816595537 := by
  refine lucas_cert 107361793816595537 3
    [(2, 4), (16699, 1), (85831, 1), (4681609, 1)]
    (by norm_num) (by decide) (by decide) ?_ (by decide) (by decide)
  intro pe hpe
  fin_cases hpe <;> simp only [] <;> first | exact prime_4681609 | norm_num

theorem prime_174723607534414371449 : Nat.Prime 174723607534414371449 := by
  refine lucas_cert 174723607534414371449 3
    [(2, 3), (17, 1), (59, 1), (4051, 1), (120233, 1), (44706919, 1)]
    (by norm_num) (by decide) (by decide) ?_ (by decide) (by decide)
  intro pe hpe
  fin_cases hpe <;> simp only [] <;> first | exact prime_44706919 | norm_num

theorem prime_29047611873442575647497758179 : Nat.Prime 29047611873442575647497758179 := by
  refine lucas_cert 29047611873442575647497758179 2
    [(2, 1), (293, 1), (305873, 1), (545358713, 1), (297159362677, 1)]
    (by norm_num) (by decide) (by decide) ?_ (by decide) (by decide)
  intro pe hpe
  fin_cases hpe <;> simp only [] <;> first | exact prime_545358713 | exact prime_297159362677 | norm_num

theorem prime_341948486974166000522343609283189 : Nat.Prime 341948486974166000522343609283189 := by
  refine lucas_cert 341948486974166000522343609283189 2
    [(2, 2), (3, 3), (109, 1), (29047611873442575647497758179, 1)]
    (by norm_num) (by decide) (by decide) ?_ (by decide) (by decide)
  intro pe hpe
  fin_cases hpe <;> simp only [] <;> first | exact prime_29047611873442575647497758179 | norm_num

theorem prime_115792089237316195423570985008687907852837564279074904382605163141518161494337 : Nat.Prime 115792089237316195423570985008687907852837564279074904382605163141518161494337 := by
  refine lucas_cert 115792089237316195423570985008687907852837564279074904382605163141518161494337 7
    [(2, 6), (3, 1), (149, 1), (631, 1), (107361793816595537, 1), (174723607534414371449, 1), (341948486974166000522343609283189, 1)]
    (by norm_num) (by decide) (by decide) ?_ (by decide) (by decide)
  intro pe hpe
  fin_cases hpe <;> simp only [] <;> first | exact prime_107361793816595537 | exact prime_174723607534414371449 | exact prime_341948486974166000522343609283189 | norm_num

/-- The order of the secp256k1 elliptic curve group
(`Secp256k1Order::MODULUS` in `src/crypto.rs`). -/
def Secp256k1Order.MODULUS : Nat :=
  0xFFFFFFFFFFFFFFFFFFFFFFFFFFFFFFFEBAAEDCE6AF48A03BBFD25E8CD0364141

theorem secp256k1_order_prime : Nat.Prime Secp256k1Order.MODULUS := by
  have h : Secp256k1Order.MODULUS =
      115792089237316195423570985008687907852837564279074904382605163141518161494337 := by
    decide
  rw [h]
  exact prime_115792089237316195423570985008687907852837564279074904382605163141518161494337

instance : Fact (Nat.Prime Secp256k1Order.MODULUS) := ⟨secp256k1_order_prime⟩


/-! ## Share algebra (`src/sub_share.rs`, `crates/core/src/share_split_reconstruct.rs`) -/

/-- The secp256k1 scalar field: residues modulo the (prime) group order. -/
abbrev Fq : Type := ZMod Secp256k1Order.MODULUS

instance : NeZero Secp256k1Order.MODULUS := ⟨secp256k1_order_prime.ne_zero⟩

/-- `U256::to_be_bytes`-style big-endian byte string: the `k` big-endian
base-256 digits of `n`. -/
def toBeBytes : Nat → Nat → List Nat
  | 0, _ => []
  | k + 1, n => toBeBytes k (n / 256) ++ [n % 256]

/-- `U256::from_be_bytes`: big-endian value of a byte string. -/
def fromBeBytes (l : List Nat) : Nat := l.foldl (fun acc b => acc * 256 + b) 0

/-- `SigningShare` (`src/sub_share.rs`): an opaque 32-byte value. -/
structure SigningShare where
  data : List Nat
deriving DecidableEq

/-- `SigningShare::new()` stores `crypto::random_mod().to_be_bytes()`; the
CSPRNG output of `random_mod()` (a uniform value `< q`, `src/crypto.rs` lines
92-97) is passed explicitly as `sample`. -/
def SigningShare.new (sample : Nat) : SigningShare := ⟨toBeBytes 32 sample⟩

/-- `SigningShare::to_be_bytes`. -/
def SigningShare.to_be_bytes (s : SigningShare) : List Nat := s.data

/-- `From<&[u8]> for SigningShare` (`src/sub_share.rs` lines 29-42): asserts
that the slice is exactly 32 bytes long (the panic is embedded as `none`) and
stores the bytes unchanged. -/
def SigningShare.from_slice (slice : List Nat) : Option SigningShare :=
  if slice.length = 32 then some ⟨slice⟩ else none

/-- `SubShare` (`src/sub_share.rs`): a point with `x`/`y` coordinates. -/
structure SubShare where
  x : Nat
  y : Nat
deriving DecidableEq

/-- `SubShare::new` panics unless both coordinates are below
`Secp256k1Order::MODULUS`; the panic is embedded as `none`. -/
def SubShare.new (x y : Nat) : Option SubShare :=
  if x < Secp256k1Order.MODULUS ∧ y < Secp256k1Order.MODULUS then some ⟨x, y⟩
  else none

/-- `SubShareInterpolator` (`src/sub_share.rs`): a line `y = g·x + c` stored by
retrieved residues. -/
structure SubShareInterpolator where
  gradient : Nat
  intercept : Nat
deriving DecidableEq

/-- `SubShareInterpolator::new` (`src/sub_share.rs` lines 96-118).  The residue
inverse `dx.invert().0` is the Bezout-coefficient modular inverse; it is
embedded as `ZMod`'s Bezout-based inverse, which likewise yields `0` for the
non-invertible residue `0` — the source discards the `invert` success flag. -/
def SubShareInterpolator.new (point_a point_b : SubShare) : SubShareInterpolator :=
  let dy : Fq := (point_a.y : Fq) - (point_b.y : Fq)
  let dx : Fq := (point_a.x : Fq) - (point_b.x : Fq)
  let gradient : Fq := dy * dx⁻¹
  let intercept_mod : Fq := (point_a.y : Fq) - gradient * (point_a.x : Fq)
  ⟨gradient.val, intercept_mod.val⟩

/-- `SubShareInterpolator::secret`. -/
def SubShareInterpolator.secret (i : SubShareInterpolator) : Nat := i.intercept

/-- `SubShareInterpolator::sub_share`: panics (embedded as `none`) unless
`0 < idx < q`; otherwise evaluates the line at `idx`. -/
def SubShareInterpolator.sub_share (i : SubShareInterpolator) (idx : Nat) :
    Option SubShare :=
  if idx < Secp256k1Order.MODULUS ∧ 0 < idx then
    some ⟨idx, ((i.gradient : Fq) * (idx : Fq) + (i.intercept : Fq)).val⟩
  else none

/-- `split` (`crates/core/src/share_split_reconstruct.rs` lines 14-37).  The
identity provider capability is its deterministic `sign_message_share`
function, and the CSPRNG output consumed by `SigningShare::new()` is the
explicit `sample` argument. -/
def split (secret_share : Nat) (sign_message_share : List Nat → Nat × Nat)
    (sample : Nat) : Option (SigningShare × SubShare) :=
  let signing_share := SigningShare.new sample
  let rs := sign_message_share signing_share.to_be_bytes
  (SubShare.new rs.1 rs.2).bind fun sub_share_a =>
    (SubShare.new 0 secret_share).bind fun point_0 =>
      let sub_share_interpolator := SubShareInterpolator.new point_0 sub_share_a
      (sub_share_interpolator.sub_share 1).map fun sub_share_b =>
        (signing_share, sub_share_b)

/-- `reconstruct` (`crates/core/src/share_split_reconstruct.rs` lines 42-56). -/
def reconstruct (signing_share : SigningShare) (sub_share_b : SubShare)
    (sign_message_share : List Nat → Nat × Nat) : Option Nat :=
  let rs := sign_message_share signing_share.to_be_bytes
  (SubShare.new rs.1 rs.2).map fun sub_share_a =>
    (SubShareInterpolator.new sub_share_a sub_share_b).secret

/-! ### Interpolator facts -/

theorem val_cast_self (a : Fq) : ((a.val : Nat) : Fq) = a :=
  ZMod.natCast_rightInverse a

theorem cast_ne_of_ne {a b : Nat} (ha : a < Secp256k1Order.MODULUS)
    (hb : b < Secp256k1Order.MODULUS) (h : a ≠ b) : (a : Fq) ≠ (b : Fq) := by
  intro hc
  apply h
  have hmod := (ZMod.natCast_eq_natCast_iff' a b _).mp hc
  rwa [Nat.mod_eq_of_lt ha, Nat.mod_eq_of_lt hb] at hmod

theorem interp_gradient_cast (A B : SubShare) :
    (((SubShareInterpolator.new A B).gradient : Nat) : Fq)
      = ((A.y : Fq) - B.y) * ((A.x : Fq) - B.x)⁻¹ := by
  simp [SubShareInterpolator.new, val_cast_self]

theorem interp_intercept_cast (A B : SubShare) :
    (((SubShareInterpolator.new A B).intercept : Nat) : Fq)
      = (A.y : Fq) - ((A.y : Fq) - B.y) * ((A.x : Fq) - B.x)⁻¹ * A.x := by
  simp [SubShareInterpolator.new, val_cast_self]

/-- Both input points lie on the line returned by the interpolator, provided
their `x`-coordinates differ in the field. -/
theorem interp_on_line (A B : SubShare) (hx : (A.x : Fq) ≠ (B.x : Fq)) :
    (A.y : Fq) = ((SubShareInterpolator.new A B).gradient : Fq) * (A.x : Fq)
        + ((SubShareInterpolator.new A B).intercept : Fq) ∧
    (B.y : Fq) = ((SubShareInterpolator.new A B).gradient : Fq) * (B.x : Fq)
        + ((SubShareInterpolator.new A B).intercept : Fq) := by
  rw [interp_gradient_cast, interp_intercept_cast]
  have h0 : (A.x : Fq) - B.x ≠ 0 := sub_ne_zero.mpr hx
  constructor
  · ring
  · have hcancel : ((A.x : Fq) - B.x) * ((A.x : Fq) - B.x)⁻¹ = 1 :=
      mul_inv_cancel₀ h0
    calc (B.y : Fq)
        = (A.y : Fq) - ((A.y : Fq) - B.y)
            * (((A.x : Fq) - B.x) * ((A.x : Fq) - B.x)⁻¹) := by
          rw [hcancel]; ring
      _ = ((A.y : Fq) - B.y) * ((A.x : Fq) - B.x)⁻¹ * (B.x : Fq)
            + ((A.y : Fq) - ((A.y : Fq) - B.y) * ((A.x : Fq) - B.x)⁻¹ * A.x) := by
          ring

/-- A line through two points with distinct `x`-coordinates is unique. -/
theorem line_unique (g c gg cc xa ya xb yb : Fq) (hx : xa ≠ xb)
    (h1 : ya = g * xa + c) (h2 : yb = g * xb + c)
    (h3 : ya = gg * xa + cc) (h4 : yb = gg * xb + cc) : g = gg ∧ c = cc := by
  have hA : g * xa + c = gg * xa + cc := h1.symm.trans h3
  have hB : g * xb + c = gg * xb + cc := h2.symm.trans h4
  have hg : (g - gg) * (xa - xb) = 0 := by linear_combination hA - hB
  have hgg : g = gg := by
    rcases mul_eq_zero.mp hg with h | h
    · exact sub_eq_zero.mp h
    · exact absurd (sub_eq_zero.mp h) hx
  refine ⟨hgg, ?_⟩
  have : g * xa + c = g * xa + cc := by rw [hgg] at hA ⊢; exact hA
  exact add_left_cancel this


/-- Core round-trip computation: reconstructing from identity point `(r, s)`
and derived point `B = (1, g + c)` recovers the original intercept `x`. -/
theorem roundtrip_core (x r s : Nat) (hx : x < Secp256k1Order.MODULUS)
    (hr0 : 0 < r) (hrQ : r < Secp256k1Order.MODULUS)
    (hsQ : s < Secp256k1Order.MODULUS) (hr1 : r ≠ 1) :
    (SubShareInterpolator.new ⟨r, s⟩
      ⟨1, (((SubShareInterpolator.new ⟨0, x⟩ ⟨r, s⟩).gradient : Fq) * ((1 : Nat) : Fq)
         + ((SubShareInterpolator.new ⟨0, x⟩ ⟨r, s⟩).intercept : Fq)).val⟩).secret = x := by
  have hQ0 : 0 < Secp256k1Order.MODULUS := secp256k1_order_prime.pos
  have hQ1 : 1 < Secp256k1Order.MODULUS := secp256k1_order_prime.one_lt
  set P0 : SubShare := ⟨0, x⟩ with hP0
  set A : SubShare := ⟨r, s⟩ with hA
  set I1 := SubShareInterpolator.new P0 A with hI1
  set yB : Nat := ((I1.gradient : Fq) * ((1 : Nat) : Fq) + (I1.intercept : Fq)).val
    with hyB
  set B : SubShare := ⟨1, yB⟩ with hB
  set I2 := SubShareInterpolator.new A B with hI2
  have hx0A : ((P0.x : Nat) : Fq) ≠ ((A.x : Nat) : Fq) := by
    rw [hP0, hA]
    show ((0 : Nat) : Fq) ≠ ((r : Nat) : Fq)
    exact cast_ne_of_ne hQ0 hrQ (by omega)
  have hxAB : ((A.x : Nat) : Fq) ≠ ((B.x : Nat) : Fq) := by
    rw [hA, hB]
    show ((r : Nat) : Fq) ≠ ((1 : Nat) : Fq)
    exact cast_ne_of_ne hrQ hQ1 hr1
  have hline1 := interp_on_line P0 A hx0A
  have hB1 : (B.y : Fq) = (I1.gradient : Fq) * (B.x : Fq) + (I1.intercept : Fq) := by
    rw [hB, hyB]
    exact val_cast_self _
  have hline2 := interp_on_line A B hxAB
  rw [← hI1] at hline1
  rw [← hI2] at hline2
  have huniq := line_unique (I1.gradient : Fq) (I1.intercept : Fq)
    (I2.gradient : Fq) (I2.intercept : Fq) (A.x : Fq) (A.y : Fq) (B.x : Fq) (B.y : Fq)
    hxAB hline1.2 hB1 hline2.1 hline2.2
  have hc1 : ((I1.intercept : Nat) : Fq) = (x : Fq) := by
    rw [hI1, interp_intercept_cast, hP0]
    simp
  have hc2 : ((I2.intercept : Nat) : Fq) = (x : Fq) := huniq.2 ▸ hc1
  have hlt : I2.intercept < Secp256k1Order.MODULUS := by
    rw [hI2]
    simp only [SubShareInterpolator.new]
    exact ZMod.val_lt _
  have hmod := (ZMod.natCast_eq_natCast_iff' _ _ _).mp hc2
  rw [Nat.mod_eq_of_lt hlt, Nat.mod_eq_of_lt hx] at hmod
  exact hmod


theorem split_eval (x : Nat) (smsh : List Nat → Nat × Nat) (sample : Nat)
    (hx : x < Secp256k1Order.MODULUS)
    (hrQ : (smsh (SigningShare.new sample).to_be_bytes).1 < Secp256k1Order.MODULUS)
    (hsQ : (smsh (SigningShare.new sample).to_be_bytes).2 < Secp256k1Order.MODULUS) :
    split x smsh sample = some (SigningShare.new sample,
      ⟨1, (((SubShareInterpolator.new ⟨0, x⟩
              ⟨(smsh (SigningShare.new sample).to_be_bytes).1,
               (smsh (SigningShare.new sample).to_be_bytes).2⟩).gradient : Fq)
            * ((1 : Nat) : Fq)
          + ((SubShareInterpolator.new ⟨0, x⟩
              ⟨(smsh (SigningShare.new sample).to_be_bytes).1,
               (smsh (SigningShare.new sample).to_be_bytes).2⟩).intercept : Fq)).val⟩) := by
  have hQ0 : 0 < Secp256k1Order.MODULUS := secp256k1_order_prime.pos
  have hQ1 : 1 < Secp256k1Order.MODULUS := secp256k1_order_prime.one_lt
  simp only [split, SubShare.new, SubShareInterpolator.sub_share,
    if_pos (And.intro hrQ hsQ), if_pos (And.intro hQ0 hx),
    if_pos (And.intro hQ1 Nat.one_pos), Option.some_bind, Option.map_some,
    Option.map_some']

theorem reconstruct_eval (sh : SigningShare) (b : SubShare)
    (smsh : List Nat → Nat × Nat)
    (hrQ : (smsh sh.to_be_bytes).1 < Secp256k1Order.MODULUS)
    (hsQ : (smsh sh.to_be_bytes).2 < Secp256k1Order.MODULUS) :
    reconstruct sh b smsh = some
      ((SubShareInterpolator.new
        ⟨(smsh sh.to_be_bytes).1, (smsh sh.to_be_bytes).2⟩ b).secret) := by
  simp only [reconstruct, SubShare.new, if_pos (And.intro hrQ hsQ),
    Option.map_some, Option.map_some']


/-! ## Claim theorems: share split / reconstruct -/

/-- **C1.** For every identity provider whose `sign_message_share` is
deterministic (here: a function) and returns scalars `(r, s)` with
`0 < r < q`, `0 < s < q` and `r ≠ 1`, and for every secret `x ∈ [0, q)`:
`split(x, I)` returns a pair `(signing_share, sub_share_b)`, and
`reconstruct(signing_share, sub_share_b, I)` returns exactly `x`. -/
theorem claim_C1_split_reconstruct_roundtrip
    (smsh : List Nat → Nat × Nat)
    (hsig : ∀ m, 0 < (smsh m).1 ∧ (smsh m).1 < Secp256k1Order.MODULUS ∧
      0 < (smsh m).2 ∧ (smsh m).2 < Secp256k1Order.MODULUS ∧ (smsh m).1 ≠ 1)
    (x : Nat) (hx : x < Secp256k1Order.MODULUS) (sample : Nat) :
    ∃ sh b, split x smsh sample = some (sh, b) ∧
      reconstruct sh b smsh = some x := by
  obtain ⟨hr0, hrQ, hs0, hsQ, hr1⟩ := hsig (SigningShare.new sample).to_be_bytes
  refine ⟨SigningShare.new sample, _, split_eval x smsh sample hx hrQ hsQ, ?_⟩
  rw [reconstruct_eval _ _ _ hrQ hsQ]
  exact congrArg some (roundtrip_core x _ _ hx hr0 hrQ hsQ hr1)

/-- Concrete identity-provider side channel used by witnesses: always returns
the scalar pair `(2, 5)`. -/
def wSignMessageShare : List Nat → Nat × Nat := fun _ => (2, 5)

/-- Witness for C1 at `x = 1`, CSPRNG sample `3`, provider scalars `(2, 5)`. -/
theorem claim_C1_witness :
    ∃ sh b, split 1 wSignMessageShare 3 = some (sh, b) ∧
      reconstruct sh b wSignMessageShare = some 1 := by
  refine claim_C1_split_reconstruct_roundtrip wSignMessageShare ?_ 1 (by decide) 3
  intro m
  show 0 < 2 ∧ 2 < Secp256k1Order.MODULUS ∧ 0 < 5 ∧
    5 < Secp256k1Order.MODULUS ∧ 2 ≠ 1
  decide


/-- **C2.** For sub-shares `P = (x1, y1)` and `Q = (x2, y2)` with coordinates
below `q` and `x1 ≠ x2`: the interpolator stores gradient
`g = (y1 - y2)·(x1 - x2)⁻¹ mod q` and intercept `c = y1 - g·x1 mod q`;
`secret()` returns `c` (the value of the line at `x = 0`); for `0 < idx < q`,
`sub_share(idx)` returns `(idx, g·idx + c mod q)`; both `P` and `Q` lie on the
line `y = g·x + c`, and that line is the unique one through `P` and `Q`. -/
theorem claim_C2_interpolator_spec (x1 y1 x2 y2 idx : Nat)
    (hx1 : x1 < Secp256k1Order.MODULUS) (hy1 : y1 < Secp256k1Order.MODULUS)
    (hx2 : x2 < Secp256k1Order.MODULUS) (hy2 : y2 < Secp256k1Order.MODULUS)
    (hne : x1 ≠ x2) (hidx0 : 0 < idx) (hidxQ : idx < Secp256k1Order.MODULUS) :
    (SubShareInterpolator.new ⟨x1, y1⟩ ⟨x2, y2⟩).gradient
        = (((y1 : Fq) - y2) * ((x1 : Fq) - x2)⁻¹).val ∧
    (SubShareInterpolator.new ⟨x1, y1⟩ ⟨x2, y2⟩).intercept
        = ((y1 : Fq) - ((y1 : Fq) - y2) * ((x1 : Fq) - x2)⁻¹ * x1).val ∧
    (SubShareInterpolator.new ⟨x1, y1⟩ ⟨x2, y2⟩).secret
        = (SubShareInterpolator.new ⟨x1, y1⟩ ⟨x2, y2⟩).intercept ∧
    (SubShareInterpolator.new ⟨x1, y1⟩ ⟨x2, y2⟩).sub_share idx
        = some ⟨idx, (((y1 : Fq) - y2) * ((x1 : Fq) - x2)⁻¹ * idx
            + ((y1 : Fq) - ((y1 : Fq) - y2) * ((x1 : Fq) - x2)⁻¹ * x1)).val⟩ ∧
    (y1 : Fq) = ((y1 : Fq) - y2) * ((x1 : Fq) - x2)⁻¹ * x1
        + ((y1 : Fq) - ((y1 : Fq) - y2) * ((x1 : Fq) - x2)⁻¹ * x1) ∧
    (y2 : Fq) = ((y1 : Fq) - y2) * ((x1 : Fq) - x2)⁻¹ * x2
        + ((y1 : Fq) - ((y1 : Fq) - y2) * ((x1 : Fq) - x2)⁻¹ * x1) ∧
    ∀ g2 c2 : Fq, (y1 : Fq) = g2 * x1 + c2 → (y2 : Fq) = g2 * x2 + c2 →
      g2 = ((y1 : Fq) - y2) * ((x1 : Fq) - x2)⁻¹
        ∧ c2 = (y1 : Fq) - ((y1 : Fq) - y2) * ((x1 : Fq) - x2)⁻¹ * x1 := by
  have hcne : ((x1 : Nat) : Fq) ≠ ((x2 : Nat) : Fq) := cast_ne_of_ne hx1 hx2 hne
  have hgrad := interp_gradient_cast ⟨x1, y1⟩ ⟨x2, y2⟩
  have hint := interp_intercept_cast ⟨x1, y1⟩ ⟨x2, y2⟩
  have hline := interp_on_line ⟨x1, y1⟩ ⟨x2, y2⟩ hcne
  rw [hgrad, hint] at hline
  refine ⟨by simp [SubShareInterpolator.new], by simp [SubShareInterpolator.new],
    rfl, ?_, hline.1, hline.2, ?_⟩
  · rw [SubShareInterpolator.sub_share, if_pos (And.intro hidxQ hidx0),
      hgrad, hint]
  · intro g2 c2 h1 h2
    have huniq := line_unique g2 c2
      (((y1 : Fq) - y2) * ((x1 : Fq) - x2)⁻¹)
      ((y1 : Fq) - ((y1 : Fq) - y2) * ((x1 : Fq) - x2)⁻¹ * x1)
      (x1 : Fq) (y1 : Fq) (x2 : Fq) (y2 : Fq) hcne h1 h2 hline.1 hline.2
    exact huniq

/-- Witness for C2: the repository test line `y = x + 1` through `(0, 1)` and
`(1, 2)`, sampled at index `2`. -/
theorem claim_C2_witness :
    (0 : Nat) ≠ 1 ∧ (0 : Nat) < 2 ∧
    (SubShareInterpolator.new ⟨0, 1⟩ ⟨1, 2⟩).sub_share 2
      = some ⟨2, ((((1 : Nat) : Fq) - ((2 : Nat) : Fq))
            * (((0 : Nat) : Fq) - ((1 : Nat) : Fq))⁻¹ * ((2 : Nat) : Fq)
          + (((1 : Nat) : Fq) - (((1 : Nat) : Fq) - ((2 : Nat) : Fq))
            * (((0 : Nat) : Fq) - ((1 : Nat) : Fq))⁻¹ * ((0 : Nat) : Fq))).val⟩ :=
  ⟨by decide, by decide,
    (claim_C2_interpolator_spec 0 1 1 2 2 (by decide) (by decide) (by decide)
      (by decide) (by decide) (by decide) (by decide)).2.2.2.1⟩


/-- **C3** (behaviour at the failing input): `SubShareInterpolator::new` does
NOT fail on two sub-shares with equal `x`-coordinates.  It performs no
distinctness check and discards the `invert` success flag, so at `A = (1, 2)`,
`B = (1, 3)` it returns the horizontal line `y = 2` (gradient `0`,
intercept `2`) — a value that does not pass through `B`, contradicting the
constructor's own documentation that both points lie on the returned line. -/
theorem claim_C3_equal_x_returns_value :
    SubShareInterpolator.new ⟨1, 2⟩ ⟨1, 3⟩ = ⟨0, 2⟩ ∧
    ((3 : Nat) : Fq) ≠
      (((SubShareInterpolator.new ⟨1, 2⟩ ⟨1, 3⟩).gradient : Nat) : Fq)
          * ((1 : Nat) : Fq)
        + (((SubShareInterpolator.new ⟨1, 2⟩ ⟨1, 3⟩).intercept : Nat) : Fq) := by
  have hmk : SubShareInterpolator.new ⟨1, 2⟩ ⟨1, 3⟩ = ⟨0, 2⟩ := by
    show (⟨(((((2 : Nat) : Fq) - ((3 : Nat) : Fq))
          * ((((1 : Nat) : Fq) - ((1 : Nat) : Fq))⁻¹))).val,
        ((((2 : Nat) : Fq) - ((((2 : Nat) : Fq) - ((3 : Nat) : Fq))
          * ((((1 : Nat) : Fq) - ((1 : Nat) : Fq))⁻¹)) * ((1 : Nat) : Fq))).val⟩ :
      SubShareInterpolator) = ⟨0, 2⟩
    rw [sub_self, inv_zero, mul_zero, zero_mul, sub_zero, ZMod.val_zero,
      ZMod.val_cast_of_lt (show (2 : Nat) < Secp256k1Order.MODULUS by decide)]
  refine ⟨hmk, ?_⟩
  rw [hmk]
  show ((3 : Nat) : Fq) ≠ ((0 : Nat) : Fq) * ((1 : Nat) : Fq) + ((2 : Nat) : Fq)
  rw [Nat.cast_zero, zero_mul, zero_add]
  exact cast_ne_of_ne (by decide) (by decide) (by decide)

/-! ## Claim theorems: SigningShare invariant (C9) -/

theorem mod_pow_succ_base (n k : Nat) :
    n % 256 ^ (k + 1) = 256 * (n / 256 % 256 ^ k) + n % 256 := by
  have hpos : 0 < 256 ^ k := Nat.pos_pow_of_pos k (by norm_num)
  have ha : n / 256 % 256 ^ k < 256 ^ k := Nat.mod_lt _ hpos
  have hb : n % 256 < 256 := Nat.mod_lt _ (by norm_num)
  have hR : 256 * (n / 256 % 256 ^ k) + n % 256 < 256 ^ (k + 1) := by
    have hstep : 256 * (n / 256 % 256 ^ k) + n % 256
        < 256 * ((n / 256 % 256 ^ k) + 1) := by omega
    have hstep2 : 256 * ((n / 256 % 256 ^ k) + 1) ≤ 256 * 256 ^ k :=
      Nat.mul_le_mul_left 256 (by omega)
    calc 256 * (n / 256 % 256 ^ k) + n % 256
        < 256 * ((n / 256 % 256 ^ k) + 1) := hstep
      _ ≤ 256 * 256 ^ k := hstep2
      _ = 256 ^ (k + 1) := by ring
  have hdecomp : n = 256 ^ (k + 1) * (n / 256 / 256 ^ k)
      + (256 * (n / 256 % 256 ^ k) + n % 256) := by
    have h2 : 256 ^ k * (n / 256 / 256 ^ k) + n / 256 % 256 ^ k = n / 256 :=
      Nat.div_add_mod _ _
    calc n = 256 * (n / 256) + n % 256 := (Nat.div_add_mod n 256).symm
      _ = 256 * (256 ^ k * (n / 256 / 256 ^ k) + n / 256 % 256 ^ k) + n % 256 := by
          rw [h2]
      _ = 256 ^ (k + 1) * (n / 256 / 256 ^ k)
          + (256 * (n / 256 % 256 ^ k) + n % 256) := by ring
  conv_lhs => rw [hdecomp]
  rw [Nat.mul_add_mod, Nat.mod_eq_of_lt hR]

theorem fromBeBytes_toBeBytes (k n : Nat) :
    fromBeBytes (toBeBytes k n) = n % 256 ^ k := by
  induction k generalizing n with
  | zero => simp [toBeBytes, fromBeBytes, Nat.mod_one]
  | succ k ih =>
    rw [toBeBytes, fromBeBytes, List.foldl_append]
    simp only [List.foldl]
    rw [show List.foldl (fun acc b => acc * 256 + b) 0 (toBeBytes k (n / 256))
        = fromBeBytes (toBeBytes k (n / 256)) from rfl, ih, mod_pow_succ_base]
    ring

/-- **C9 (counterexample).** Not every `SigningShare` produced by the public
interface has value below the curve order: `From<&[u8]>` only asserts the
length, so converting the 32-byte slice of all `0xFF` bytes succeeds and
yields a signing share whose big-endian value `2^256 - 1` is at least the
curve order. -/
theorem claim_C9_counterexample :
    SigningShare.from_slice (List.replicate 32 255)
        = some ⟨List.replicate 32 255⟩ ∧
    ¬ fromBeBytes (List.replicate 32 255) < Secp256k1Order.MODULUS := by
  constructor
  · rw [SigningShare.from_slice, if_pos (by decide)]
  · decide

/-- **C9 (amended).** `SigningShare::new()` stores the 32 big-endian bytes of
the `random_mod()` sample, so its value equals the sample and is below the
curve order; `From<&[u8]>` of a 32-byte slice stores the bytes unchanged, so
the invariant holds for a conversion exactly when the input slice's value is
below the curve order. -/
theorem claim_C9_amended (sample : Nat) (hs : sample < Secp256k1Order.MODULUS)
    (slice : List Nat) (hlen : slice.length = 32) :
    fromBeBytes (SigningShare.new sample).to_be_bytes = sample ∧
    fromBeBytes (SigningShare.new sample).to_be_bytes < Secp256k1Order.MODULUS ∧
    SigningShare.from_slice slice = some ⟨slice⟩ := by
  have hval : fromBeBytes (SigningShare.new sample).to_be_bytes = sample := by
    show fromBeBytes (toBeBytes 32 sample) = sample
    rw [fromBeBytes_toBeBytes]
    apply Nat.mod_eq_of_lt
    calc sample < Secp256k1Order.MODULUS := hs
      _ < 256 ^ 32 := by decide
  refine ⟨hval, by rw [hval]; exact hs, ?_⟩
  rw [SigningShare.from_slice, if_pos hlen]

/-- Witness for C9 (amended) at sample `3` and the all-zero 32-byte slice. -/
theorem claim_C9_witness :
    (3 : Nat) < Secp256k1Order.MODULUS ∧ (List.replicate 32 0).length = 32 ∧
    (fromBeBytes (SigningShare.new 3).to_be_bytes = 3 ∧
     fromBeBytes (SigningShare.new 3).to_be_bytes < Secp256k1Order.MODULUS ∧
     SigningShare.from_slice (List.replicate 32 0)
        = some ⟨List.replicate 32 0⟩) :=
  ⟨by decide, by decide,
    claim_C9_amended 3 (by decide) (List.replicate 32 0) (by decide)⟩


/-! ## Crypto primitives (`src/crypto.rs`) -/

/-- `SignatureAlgorithm` (`src/crypto.rs`). -/
inductive SignatureAlgorithm | ECDSA | EdDSA
deriving DecidableEq

/-- `EllipticCurve` (`src/crypto.rs`). -/
inductive EllipticCurve | Secp256k1 | Curve25519
deriving DecidableEq

/-- `HashFunction` (`src/crypto.rs`). -/
inductive HashFunction | SHA256 | KECCAK256
deriving DecidableEq

/-- `KeyEncoding` (`src/crypto.rs`). -/
inductive KeyEncoding | SEC1 | EIP55
deriving DecidableEq

/-- `SignatureEncoding` (`src/crypto.rs`). -/
inductive SignatureEncoding | DER | RLP
deriving DecidableEq

/-- `VerifyingKey` (`src/crypto.rs`): tagged key bytes. -/
structure VerifyingKey where
  key : List Nat
  algo : SignatureAlgorithm
  curve : EllipticCurve
  enc : KeyEncoding
deriving DecidableEq

/-- `Signature` (`src/crypto.rs`): tagged signature bytes. -/
structure Signature where
  sig : List Nat
  algo : SignatureAlgorithm
  curve : EllipticCurve
  hash : HashFunction
  enc : SignatureEncoding
deriving DecidableEq

/-- `CryptoError` (declared in the core `errors` module, which is not among the
provided sources; its variants are fixed by their uses in `src/crypto.rs` and
by spec §7). -/
inductive CryptoError
  | InvalidSignature
  | InvalidVerifyingKey
  | SignatureAlgorithmMismatch
  | EllipticCurveMismatch
  | UnsupportedHashFunction
  | UnsupportedSignatureEncoding
  | UnsupportedKeyEncoding
  | UnsupportedEllipticCurve
  | UnsupportedSignatureAlgorithm
deriving DecidableEq

/-- The external `k256` ECDSA engine consumed by `verify_signature` (an
out-of-scope collaborator per spec §1): whether SEC1 key parsing succeeds,
whether DER signature parsing succeeds, and whether the parsed signature
verifies for the parsed key over a message. -/
structure EcdsaBackend where
  parse_vk_ok : List Nat → Bool
  parse_sig_ok : List Nat → Bool
  verify_ok : List Nat → List Nat → List Nat → Bool

/-- `crypto::verify_signature` (`src/crypto.rs` lines 100-143): dispatches on
the `(algo, curve, key-encoding, sig-encoding, hash)` tags; only
`ECDSA/secp256k1/SEC1/DER/SHA-256` is supported.  Mirrors the source's check
order: the DER signature parse error surfaces before the key parse error. -/
def verify_signature (B : EcdsaBackend) (verifying_key : VerifyingKey)
    (msg : List Nat) (signature : Signature) : Except CryptoError Unit :=
  if verifying_key.algo ≠ signature.algo then
    .error .SignatureAlgorithmMismatch
  else if verifying_key.curve ≠ signature.curve then
    .error .EllipticCurveMismatch
  else
    match verifying_key.algo with
    | .ECDSA =>
      match verifying_key.curve with
      | .Secp256k1 =>
        match verifying_key.enc with
        | .SEC1 =>
          match signature.enc with
          | .DER =>
            match signature.hash with
            | .SHA256 =>
              if ¬ B.parse_sig_ok signature.sig then .error .InvalidSignature
              else if ¬ B.parse_vk_ok verifying_key.key then
                .error .InvalidVerifyingKey
              else if B.verify_ok verifying_key.key msg signature.sig then
                .ok ()
              else .error .InvalidSignature
            | _ => .error .UnsupportedHashFunction
          | _ => .error .UnsupportedSignatureEncoding
        | _ => .error .UnsupportedKeyEncoding
      | _ => .error .UnsupportedEllipticCurve
    | _ => .error .UnsupportedSignatureAlgorithm

/-! ## Identity challenge (`crates/core/src/identity_challenge.rs`) -/

/-- `U256::add_mod(·, ·, q)` as used by the fragment fold: exact modular
addition within its contract (`a + b < 2q`), i.e. a single conditional
subtraction. -/
def add_mod (a b : Nat) : Nat :=
  if Secp256k1Order.MODULUS ≤ a + b then a + b - Secp256k1Order.MODULUS
  else a + b

/-- The fragment aggregate: `fold(U256::ZERO, |acc, n| acc.add_mod(n, q))`
(`identity_challenge.rs` lines 50-54). -/
def fragments_sum (challenge_fragments : List Nat) : Nat :=
  challenge_fragments.foldl (fun acc n => add_mod acc n) 0

/-- Modelled from the spec: `utils::prefixed_message_bytes` is not among the
provided sources (the provided `crates/core/src/utils.rs` holds only
`unix_timestamp`).  Per spec §4.D, `prefix()` prepends a domain-separation tag
to the message; the tag bytes are abstracted as the parameter `tag`. -/
def prefixed_message_bytes (tag : List Nat) (msg : List Nat) : List Nat :=
  tag ++ msg

/-- `challenge_message_bytes` (`identity_challenge.rs` lines 48-57): the
domain-separated big-endian bytes of the fragment aggregate. -/
def challenge_message_bytes (tag : List Nat) (challenge_fragments : List Nat) :
    List Nat :=
  prefixed_message_bytes tag (toBeBytes 32 (fragments_sum challenge_fragments))

/-- `identity_challenge::respond` (`identity_challenge.rs` lines 23-28): the
identity provider is its `sign` capability `sgn`. -/
def identity_challenge.respond (tag : List Nat) (sgn : List Nat → Signature)
    (challenge_fragments : List Nat) : Signature :=
  sgn (challenge_message_bytes tag challenge_fragments)

/-- `identity_challenge::verify` (`identity_challenge.rs` lines 35-45). -/
def identity_challenge.verify (B : EcdsaBackend) (tag : List Nat)
    (signature : Signature) (challenge_fragments : List Nat)
    (verifying_key : VerifyingKey) : Except CryptoError Unit :=
  verify_signature B verifying_key
    (challenge_message_bytes tag challenge_fragments) signature

/-! ## Identity rotation (`crates/core/src/identity_rotation.rs`) -/

/-- The core `Error` wrapper (declared in the core `errors` module, absent
from the provided sources; the `Crypto` variant is fixed by the tests in
`identity_rotation.rs` and spec §7). -/
inductive Error
  | Crypto (e : CryptoError)
deriving DecidableEq

/-- `IdentityRotationChallengeResponsePayload` (declared in the core
`payloads` module, absent from the provided sources; fields fixed by its
construction in `identity_rotation.rs` lines 42-51 and spec §3). -/
structure IdentityRotationChallengeResponsePayload where
  new_verifying_key : VerifyingKey
  current_signature : Signature
  new_signature : Signature

/-- `identity_rotation::verify_challenge_response` (`identity_rotation.rs`
lines 56-73): verifies the current identity first, then the new identity,
wrapping either failure via `From<CryptoError> for Error`. -/
def verify_challenge_response (B : EcdsaBackend) (tag : List Nat)
    (response : IdentityRotationChallengeResponsePayload)
    (challenge_fragments : List Nat) (verifying_key : VerifyingKey) :
    Except Error Unit :=
  match identity_challenge.verify B tag response.current_signature
      challenge_fragments verifying_key with
  | .error e => .error (.Crypto e)
  | .ok _ =>
    match identity_challenge.verify B tag response.new_signature
        challenge_fragments response.new_verifying_key with
    | .error e => .error (.Crypto e)
    | .ok _ => .ok ()


/-! ## Claim theorems: identity rotation / challenge (C7, C8, C10) -/

/-- **C7.** `verify_challenge_response` returns `Ok(())` iff the payload's
`current_signature` verifies against the given `verifying_key` over the
fragment aggregate AND its `new_signature` verifies against the payload's own
`new_verifying_key` over the same aggregate; on failure it returns the wrapped
crypto error, the current-identity check being performed first. -/
theorem claim_C7_rotation_verify_spec (B : EcdsaBackend) (tag : List Nat)
    (response : IdentityRotationChallengeResponsePayload)
    (challenge_fragments : List Nat) (verifying_key : VerifyingKey) :
    (verify_challenge_response B tag response challenge_fragments verifying_key
        = .ok () ↔
      (identity_challenge.verify B tag response.current_signature
          challenge_fragments verifying_key = .ok () ∧
       identity_challenge.verify B tag response.new_signature
          challenge_fragments response.new_verifying_key = .ok ())) ∧
    (∀ e, identity_challenge.verify B tag response.current_signature
        challenge_fragments verifying_key = .error e →
      verify_challenge_response B tag response challenge_fragments verifying_key
        = .error (.Crypto e)) ∧
    (∀ e, identity_challenge.verify B tag response.current_signature
        challenge_fragments verifying_key = .ok () →
      identity_challenge.verify B tag response.new_signature
        challenge_fragments response.new_verifying_key = .error e →
      verify_challenge_response B tag response challenge_fragments verifying_key
        = .error (.Crypto e)) := by
  cases hcur : identity_challenge.verify B tag response.current_signature
      challenge_fragments verifying_key with
  | error e =>
    refine ⟨?_, ?_, ?_⟩
    · simp [verify_challenge_response, hcur]
    · intro e2 he2
      rw [Except.error.injEq] at he2
      simp [verify_challenge_response, hcur, he2]
    · intro e2 he2
      simp at he2
  | ok u =>
    cases u
    cases hnew : identity_challenge.verify B tag response.new_signature
        challenge_fragments response.new_verifying_key with
    | error e =>
      refine ⟨?_, ?_, ?_⟩
      · simp [verify_challenge_response, hcur, hnew]
      · intro e2 he2
        simp at he2
      · intro e2 _ he2
        rw [Except.error.injEq] at he2
        simp [verify_challenge_response, hcur, hnew, he2]
    | ok v =>
      cases v
      refine ⟨?_, ?_, ?_⟩
      · simp [verify_challenge_response, hcur, hnew]
      · intro e2 he2
        simp at he2
      · intro e2 _ he2
        simp at he2

/-- Backend used by witnesses: parsing always succeeds and every parsed
signature verifies. -/
def wBackend : EcdsaBackend :=
  ⟨fun _ => true, fun _ => true, fun _ _ _ => true⟩

/-- Backend used by witnesses: parsing succeeds but no signature verifies. -/
def wBackendReject : EcdsaBackend :=
  ⟨fun _ => true, fun _ => true, fun _ _ _ => false⟩

/-- Verifying key used by witnesses (supported tag combination). -/
def wVerifyingKey : VerifyingKey := ⟨[7], .ECDSA, .Secp256k1, .SEC1⟩

/-- Identity-provider `sign` capability used by witnesses: tags the message
bytes themselves as a DER/SHA-256 ECDSA signature. -/
def wSign : List Nat → Signature :=
  fun m => ⟨m, .ECDSA, .Secp256k1, .SHA256, .DER⟩

/-- Witness payload for C7. -/
def wPayload : IdentityRotationChallengeResponsePayload :=
  ⟨wVerifyingKey, wSign [1], wSign [2]⟩

/-- Witness for C7 at the accept-all backend and concrete payload. -/
theorem claim_C7_witness :
    verify_challenge_response wBackend [9] wPayload [1, 2] wVerifyingKey
        = .ok () ↔
      (identity_challenge.verify wBackend [9] wPayload.current_signature
          [1, 2] wVerifyingKey = .ok () ∧
       identity_challenge.verify wBackend [9] wPayload.new_signature
          [1, 2] wPayload.new_verifying_key = .ok ()) :=
  (claim_C7_rotation_verify_spec wBackend [9] wPayload [1, 2] wVerifyingKey).1

theorem foldl_add_mod (F : List Nat) (acc : Nat)
    (hacc : acc < Secp256k1Order.MODULUS)
    (h : ∀ x ∈ F, x < Secp256k1Order.MODULUS) :
    F.foldl (fun a n => add_mod a n) acc = (acc + F.sum) % Secp256k1Order.MODULUS := by
  induction F generalizing acc with
  | nil =>
    simp only [List.foldl_nil, List.sum_nil, Nat.add_zero]
    exact (Nat.mod_eq_of_lt hacc).symm
  | cons x xs ih =>
    simp only [List.foldl_cons, List.sum_cons]
    have hx : x < Secp256k1Order.MODULUS := h x (by simp)
    have hstep : add_mod acc x = (acc + x) % Secp256k1Order.MODULUS := by
      rw [add_mod]
      by_cases hcase : Secp256k1Order.MODULUS ≤ acc + x
      · rw [if_pos hcase, Nat.mod_eq_sub_mod hcase,
          Nat.mod_eq_of_lt (by omega)]
      · rw [if_neg hcase, Nat.mod_eq_of_lt (by omega)]
    rw [hstep, ih ((acc + x) % Secp256k1Order.MODULUS)
      (Nat.mod_lt _ secp256k1_order_prime.pos)
      (fun y hy => h y (by simp [hy]))]
    rw [Nat.mod_add_mod, Nat.add_assoc]

/-- The fragment fold computes the fragment sum modulo the curve order,
provided every fragment is below the order (as produced by `initiate`). -/
theorem fragments_sum_eq_sum_mod (F : List Nat)
    (h : ∀ x ∈ F, x < Secp256k1Order.MODULUS) :
    fragments_sum F = F.sum % Secp256k1Order.MODULUS := by
  rw [fragments_sum, foldl_add_mod F 0 secp256k1_order_prime.pos h,
    Nat.zero_add]

/-- **C8.** Identity-challenge verification depends on the fragment list only
through its sum modulo `q`: two fragment lists (of fragments below `q`, as
`initiate` produces) with equal sums mod `q` — in particular permutations of
each other — give identical `challenge_message_bytes`, hence identical
`verify` results and identical bytes signed by `respond`. -/
theorem claim_C8_sum_invariance (B : EcdsaBackend) (tag : List Nat)
    (signature : Signature) (verifying_key : VerifyingKey)
    (sgn : List Nat → Signature) (F1 F2 : List Nat)
    (h1 : ∀ x ∈ F1, x < Secp256k1Order.MODULUS)
    (h2 : ∀ x ∈ F2, x < Secp256k1Order.MODULUS)
    (hsum : F1.sum % Secp256k1Order.MODULUS = F2.sum % Secp256k1Order.MODULUS) :
    challenge_message_bytes tag F1 = challenge_message_bytes tag F2 ∧
    identity_challenge.verify B tag signature F1 verifying_key
      = identity_challenge.verify B tag signature F2 verifying_key ∧
    identity_challenge.respond tag sgn F1 = identity_challenge.respond tag sgn F2 := by
  have hbytes : challenge_message_bytes tag F1 = challenge_message_bytes tag F2 := by
    rw [challenge_message_bytes, challenge_message_bytes,
      fragments_sum_eq_sum_mod F1 h1, fragments_sum_eq_sum_mod F2 h2, hsum]
  refine ⟨hbytes, ?_, ?_⟩
  · rw [identity_challenge.verify, identity_challenge.verify, hbytes]
  · rw [identity_challenge.respond, identity_challenge.respond, hbytes]

/-- Witness for C8: the permuted fragment lists `[1, 2]` and `[2, 1]`. -/
theorem claim_C8_witness :
    challenge_message_bytes [9] [1, 2] = challenge_message_bytes [9] [2, 1] ∧
    identity_challenge.verify wBackendReject [9] (wSign [3]) [1, 2] wVerifyingKey
      = identity_challenge.verify wBackendReject [9] (wSign [3]) [2, 1] wVerifyingKey ∧
    identity_challenge.respond [9] wSign [1, 2]
      = identity_challenge.respond [9] wSign [2, 1] := by
  refine claim_C8_sum_invariance wBackendReject [9] (wSign [3]) wVerifyingKey
    wSign [1, 2] [2, 1] ?_ ?_ (by decide)
  · intro x hx
    fin_cases hx <;> decide
  · intro x hx
    fin_cases hx <;> decide

/-- **C10.** For every identity provider whose signatures verify against its
own verifying key, and every fragment list `F` — including the empty list —
`verify(respond(F, I), F, I.verifying_key())` returns `Ok(())`; with zero
fragments both responder and verifier operate on the aggregate sum `0`. -/
theorem claim_C10_respond_verify_roundtrip (B : EcdsaBackend) (tag : List Nat)
    (sgn : List Nat → Signature) (verifying_key : VerifyingKey)
    (hsign : ∀ m, verify_signature B verifying_key m (sgn m) = .ok ())
    (F : List Nat) :
    identity_challenge.verify B tag (identity_challenge.respond tag sgn F) F
        verifying_key = .ok () ∧
    challenge_message_bytes tag [] = prefixed_message_bytes tag (toBeBytes 32 0) := by
  constructor
  · rw [identity_challenge.verify, identity_challenge.respond]
    exact hsign (challenge_message_bytes tag F)
  · rfl

/-- Witness for C10 at the accept-all backend and the empty fragment list. -/
theorem claim_C10_witness :
    identity_challenge.verify wBackend [9]
        (identity_challenge.respond [9] wSign []) [] wVerifyingKey = .ok () ∧
    challenge_message_bytes [9] [] = prefixed_message_bytes [9] (toBeBytes 32 0) := by
  refine claim_C10_respond_verify_roundtrip wBackend [9] wSign wVerifyingKey ?_ []
  intro m
  rfl


/-! ## Authorized key refresh orchestrator
(`crates/cggmp/src/authorized_key_refresh.rs`) -/

/-- `round_based::Msg`: sender, optional receiver (broadcast when `none`),
body. -/
structure Msg (β : Type) where
  sender : Nat
  receiver : Option Nat
  body : β

/-- `Msg::map_body`. -/
def Msg.map_body {β γ : Type} (f : β → γ) (m : Msg β) : Msg γ :=
  ⟨m.sender, m.receiver, f m.body⟩

/-- `AuthorizedKeyRefreshMessage` (`authorized_key_refresh.rs` lines 102-106):
the composite message body, tagged by originating phase. -/
inductive AuthorizedKeyRefreshMessage (ιβ ρβ : Type)
  | Init (body : ιβ)
  | Refresh (body : ρβ)

/-- The orchestrator error `Error` (`authorized_key_refresh.rs` lines
108-115). -/
inductive AKRError (ιε ρε : Type)
  | Init (e : ιε)
  | Refresh (e : ρε)
  | AlreadyPicked
  | InvalidInput
  | OutOfOrderMessage

/-- Abstract interface of a wrapped round-based sub-machine (the
`round_based::StateMachine` operations the orchestrator consumes): message
handling, the queue contents, the state after `message_queue().split_off(0)`,
the finished flag, and output extraction. -/
structure SubMachineOps (σ β ε ω : Type) where
  handle_incoming : σ → Msg β → Except ε σ
  message_queue : σ → List (Msg β)
  take_queue : σ → σ
  is_finished : σ → Bool
  pick_output : σ → Option (Except ε ω)

/-- The orchestrator state distilled from the `AuthorizedKeyRefresh` trait
getters: the init sub-machine, the optional refresh sub-machine (present once
instantiated) and the composite message queue. -/
structure AuthorizedKeyRefreshState (ισ ρσ ιβ ρβ : Type) where
  init_state_machine : ισ
  refresh_state_machine : Option ρσ
  composite_message_queue : List (Msg (AuthorizedKeyRefreshMessage ιβ ρβ))

/-- `update_composite_message_queue` (`authorized_key_refresh.rs` lines
60-88): drain the active sub-machine's queue into the composite queue,
wrapping each body with the phase tag. -/
def update_composite_message_queue {ισ ρσ ιβ ρβ ιε ρε ιω ρω : Type}
    (iops : SubMachineOps ισ ιβ ιε ιω) (rops : SubMachineOps ρσ ρβ ρε ρω)
    (s : AuthorizedKeyRefreshState ισ ρσ ιβ ρβ) :
    AuthorizedKeyRefreshState ισ ρσ ιβ ρβ :=
  match s.refresh_state_machine with
  | none =>
    let new_messages := iops.message_queue s.init_state_machine
    { s with
      init_state_machine := iops.take_queue s.init_state_machine
      composite_message_queue := s.composite_message_queue
        ++ new_messages.map (Msg.map_body AuthorizedKeyRefreshMessage.Init) }
  | some r =>
    let new_messages := rops.message_queue r
    { s with
      refresh_state_machine := some (rops.take_queue r)
      composite_message_queue := s.composite_message_queue
        ++ new_messages.map (Msg.map_body AuthorizedKeyRefreshMessage.Refresh) }

/-- `perform_transition` (`authorized_key_refresh.rs` lines 93-99): instantiate
the refresh sub-machine (via the per-protocol `init_key_refresh`) exactly when
the init machine is finished and refresh is not yet active. -/
def perform_transition {ισ ρσ ιβ ρβ ιε ρε ιω : Type}
    (iops : SubMachineOps ισ ιβ ιε ιω)
    (init_key_refresh : AuthorizedKeyRefreshState ισ ρσ ιβ ρβ →
      Except (AKRError ιε ρε) (AuthorizedKeyRefreshState ισ ρσ ιβ ρβ))
    (s : AuthorizedKeyRefreshState ισ ρσ ιβ ρβ) :
    Except (AKRError ιε ρε) (AuthorizedKeyRefreshState ισ ρσ ιβ ρβ) :=
  if s.refresh_state_machine.isNone ∧ iops.is_finished s.init_state_machine then
    init_key_refresh s
  else .ok s

/-- `handle_incoming` of the generated `StateMachine` impl
(`authorized_key_refresh.rs` lines 145-184): route the body by phase tag to
the corresponding active sub-machine (rejecting cross-phase messages as
`OutOfOrderMessage`), then drain queues and attempt the transition. -/
def handle_incoming {ισ ρσ ιβ ρβ ιε ρε ιω ρω : Type}
    (iops : SubMachineOps ισ ιβ ιε ιω) (rops : SubMachineOps ρσ ρβ ρε ρω)
    (init_key_refresh : AuthorizedKeyRefreshState ισ ρσ ιβ ρβ →
      Except (AKRError ιε ρε) (AuthorizedKeyRefreshState ισ ρσ ιβ ρβ))
    (s : AuthorizedKeyRefreshState ισ ρσ ιβ ρβ)
    (msg : Msg (AuthorizedKeyRefreshMessage ιβ ρβ)) :
    Except (AKRError ιε ρε) (AuthorizedKeyRefreshState ισ ρσ ιβ ρβ) :=
  match msg.body with
  | .Init id_msg =>
    match s.refresh_state_machine with
    | none =>
      match iops.handle_incoming s.init_state_machine
          ⟨msg.sender, msg.receiver, id_msg⟩ with
      | .error e => .error (.Init e)
      | .ok init2 =>
        perform_transition iops init_key_refresh
          (update_composite_message_queue iops rops
            { s with init_state_machine := init2 })
    | some _ => .error .OutOfOrderMessage
  | .Refresh refresh_msg =>
    match s.refresh_state_machine with
    | some r =>
      match rops.handle_incoming r ⟨msg.sender, msg.receiver, refresh_msg⟩ with
      | .error e => .error (.Refresh e)
      | .ok r2 =>
        perform_transition iops init_key_refresh
          (update_composite_message_queue iops rops
            { s with refresh_state_machine := some r2 })
    | none => .error .OutOfOrderMessage

/-- `is_finished` of the generated `StateMachine` impl
(`authorized_key_refresh.rs` lines 220-228). -/
def is_finished {ισ ρσ ιβ ρβ ιε ρε ιω ρω : Type}
    (iops : SubMachineOps ισ ιβ ιε ιω) (rops : SubMachineOps ρσ ρβ ρε ρω)
    (s : AuthorizedKeyRefreshState ισ ρσ ιβ ρβ) : Bool :=
  iops.is_finished s.init_state_machine &&
    (match s.refresh_state_machine with
     | none => false
     | some r => rops.is_finished r)

/-- `pick_output` of the generated `StateMachine` impl
(`authorized_key_refresh.rs` lines 230-237). -/
def pick_output {ισ ρσ ιβ ρβ ιε ρε ιω ρω : Type}
    (iops : SubMachineOps ισ ιβ ιε ιω) (rops : SubMachineOps ρσ ρβ ρε ρω)
    (s : AuthorizedKeyRefreshState ισ ρσ ιβ ρβ) :
    Option (Except (AKRError ιε ρε) ρω) :=
  if is_finished iops rops s then
    (s.refresh_state_machine.bind fun r => rops.pick_output r).map
      (fun res => res.mapError AKRError.Refresh)
  else none

/-! ## Claim theorems: orchestrator (C4, C5) -/

/-- **C4.** For every authorized-key-refresh orchestrator state:
`is_finished()` is true iff the init sub-machine is finished AND the refresh
sub-machine has been instantiated and is finished; and whenever `is_finished()`
is false, `pick_output()` returns `None`. -/
theorem claim_C4_finished_and_output {ισ ρσ ιβ ρβ ιε ρε ιω ρω : Type}
    (iops : SubMachineOps ισ ιβ ιε ιω) (rops : SubMachineOps ρσ ρβ ρε ρω)
    (s : AuthorizedKeyRefreshState ισ ρσ ιβ ρβ) :
    (is_finished iops rops s = true ↔
      (iops.is_finished s.init_state_machine = true ∧
        ∃ r, s.refresh_state_machine = some r ∧ rops.is_finished r = true)) ∧
    (is_finished iops rops s = false → pick_output iops rops s = none) := by
  constructor
  · rw [is_finished]
    cases hr : s.refresh_state_machine with
    | none => simp
    | some r => simp [hr]
  · intro hfin
    rw [pick_output, if_neg (by rw [hfin]; exact Bool.false_ne_true)]

/-- Trivial concrete sub-machine used by the orchestrator witnesses: state is
a single `finished` flag, handling is the identity, the queue is empty and no
output is ever produced. -/
def wSubOps : SubMachineOps Bool Unit Unit Unit :=
  ⟨fun s _ => Except.ok s, fun _ => [], fun s => s, fun s => s, fun _ => none⟩

/-- Witness orchestrator state for C4: init unfinished, refresh inactive. -/
def wAKRState : AuthorizedKeyRefreshState Bool Bool Unit Unit :=
  ⟨false, none, []⟩

/-- Witness for C4: in the unfinished witness state, `pick_output` is `None`. -/
theorem claim_C4_witness :
    pick_output wSubOps wSubOps wAKRState = none :=
  (claim_C4_finished_and_output wSubOps wSubOps wAKRState).2 rfl

/-- **C5.** `handle_incoming`: an `Init(_)` body while the refresh sub-machine
is active is rejected as `OutOfOrderMessage` (nothing is forwarded); a
`Refresh(_)` body while refresh is not yet active is likewise rejected; in the
two remaining cases the body is forwarded to the corresponding active
sub-machine (whose error is wrapped), followed by the queue drain and the
transition attempt. -/
theorem claim_C5_cross_phase_routing {ισ ρσ ιβ ρβ ιε ρε ιω ρω : Type}
    (iops : SubMachineOps ισ ιβ ιε ιω) (rops : SubMachineOps ρσ ρβ ρε ρω)
    (init_key_refresh : AuthorizedKeyRefreshState ισ ρσ ιβ ρβ →
      Except (AKRError ιε ρε) (AuthorizedKeyRefreshState ισ ρσ ιβ ρβ))
    (s : AuthorizedKeyRefreshState ισ ρσ ιβ ρβ)
    (sender : Nat) (receiver : Option Nat) :
    (∀ (b : ιβ) (r : ρσ), s.refresh_state_machine = some r →
      handle_incoming iops rops init_key_refresh s
          ⟨sender, receiver, .Init b⟩ = .error .OutOfOrderMessage) ∧
    (∀ b : ρβ, s.refresh_state_machine = none →
      handle_incoming iops rops init_key_refresh s
          ⟨sender, receiver, .Refresh b⟩ = .error .OutOfOrderMessage) ∧
    (∀ b : ιβ, s.refresh_state_machine = none →
      handle_incoming iops rops init_key_refresh s ⟨sender, receiver, .Init b⟩
        = match iops.handle_incoming s.init_state_machine ⟨sender, receiver, b⟩ with
          | .error e => .error (.Init e)
          | .ok init2 => perform_transition iops init_key_refresh
              (update_composite_message_queue iops rops
                { s with init_state_machine := init2 })) ∧
    (∀ (b : ρβ) (r : ρσ), s.refresh_state_machine = some r →
      handle_incoming iops rops init_key_refresh s ⟨sender, receiver, .Refresh b⟩
        = match rops.handle_incoming r ⟨sender, receiver, b⟩ with
          | .error e => .error (.Refresh e)
          | .ok r2 => perform_transition iops init_key_refresh
              (update_composite_message_queue iops rops
                { s with refresh_state_machine := some r2 })) := by
  refine ⟨?_, ?_, ?_, ?_⟩
  · intro b r hr
    rw [handle_incoming]
    simp only [hr]
  · intro b hr
    rw [handle_incoming]
    simp only [hr]
  · intro b hr
    rw [handle_incoming]
    simp only [hr]
  · intro b r hr
    rw [handle_incoming]
    simp only [hr]

/-- Witness orchestrator state for C5: refresh active. -/
def wAKRStateRefresh : AuthorizedKeyRefreshState Bool Bool Unit Unit :=
  ⟨true, some false, []⟩

/-- Witness for C5: an `Init` body delivered while refresh is active is
rejected as `OutOfOrderMessage`. -/
theorem claim_C5_witness :
    handle_incoming wSubOps wSubOps Except.ok wAKRStateRefresh
        ⟨0, none, .Init ()⟩ = .error .OutOfOrderMessage :=
  (claim_C5_cross_phase_routing wSubOps wSubOps Except.ok wAKRStateRefresh
    0 none).1 () false rfl

/-! ## FS-DKR threshold guard (C6, `crates/cggmp/src/key_refresh.rs`) -/

/-- `Error<T>` (`crates/cggmp/src/errors.rs`), named `CggmpError` here to
avoid clashing with the core `Error`. -/
inductive CggmpError (T : Type)
  | Core (e : Error)
  | StateMachine (e : T)
  | MissingParams (bad_actors : List Nat)
  | BadFSDKRThreshold

/-- `AugmentedKeyRefresh::new` (`crates/cggmp/src/key_refresh.rs` lines
40-101): the FS-DKR honest-majority guard `new_threshold ≤ n_parties / 2`
(checked first), followed by the remaining construction steps — secret-share
reconstruction, engine construction, message-queue augmentation.  Modelled
from the spec for the steps living in the absent `asm` module: their outcome
is the continuation `rest`, whose error type records that (per the `?`
conversions in the sources and spec §7) they surface only `Core`,
`StateMachine` or `MissingParams` errors. -/
def AugmentedKeyRefresh.new (T St : Type) (new_threshold n_parties : Nat)
    (rest : Except (Error ⊕ T ⊕ List Nat) St) : Except (CggmpError T) St :=
  if n_parties / 2 < new_threshold then .error .BadFSDKRThreshold
  else
    match rest with
    | .ok st => .ok st
    | .error (.inl e) => .error (.Core e)
    | .error (.inr (.inl e)) => .error (.StateMachine e)
    | .error (.inr (.inr bad)) => .error (.MissingParams bad)

/-- **C6.** `AugmentedKeyRefresh::new` returns `BadFSDKRThreshold` exactly
when `new_threshold > n_parties / 2` (integer division); for
`new_threshold ≤ n_parties / 2` it never returns `BadFSDKRThreshold`,
whatever the remaining construction steps do. -/
theorem claim_C6_fsdkr_threshold_guard (T St : Type)
    (new_threshold n_parties : Nat) (rest : Except (Error ⊕ T ⊕ List Nat) St) :
    AugmentedKeyRefresh.new T St new_threshold n_parties rest
        = .error .BadFSDKRThreshold
      ↔ n_parties / 2 < new_threshold := by
  constructor
  · intro h
    by_contra hle
    rw [AugmentedKeyRefresh.new.eq_def, if_neg hle] at h
    rcases rest with e | st
    · rcases e with e | e | bad <;> simp at h
    · simp at h
  · intro hgt
    rw [AugmentedKeyRefresh.new.eq_def, if_pos hgt]

end Wamu
